import Mathlib

/-!
Verification of the moneycontrol forum scraping pipeline.

This file shallowly embeds the core logic of the repository's five Python
modules and proves (or refutes) the frozen specification claims about them:

* `sentiment.py` — `SentimentAnalyzer.score` (fallback path), the fallback
  lexicon scorer `simple_lexicon_score` and `label_from_compound`;
* `scraper.py` — the `Post` record, `clean_text`, the static backend's
  element discovery `_find_post_elements`, `_find_first_text` and
  `parse_posts` with its per-call dedup set;
* `selenium_scraper.py` — the dynamic backend's positional `parse_posts`
  and the `_scroll_to_load_more` loop state machine;
* `api_scraper.py` — `parse_section_id` and the offset/limit pagination of
  `fetch_posts`;
* `pipeline.py` — `_append_posts`, `aggregate` and the per-URL error
  boundary of `run_pipeline`.

Machine floats are idealised as exact arithmetic (`ℚ`, with `ℝ` only where
`math.sqrt` forces an irrational value).  Network, browser and BeautifulSoup
traversal are external collaborators: pages and DOM elements enter the
embedding as already-extracted structured values, exactly at the boundary
where the Python code reads `.stripped_strings`, attribute values, JSON
fields, or batch lists.  Exceptions are modelled with `Option`/`Except`.
-/

/-! ## Text utilities (`scraper.clean_text`, Python `str.split`, `re.findall`) -/

/-- One step of whitespace-run collapsing: the Boolean records whether the
previous character was whitespace, mirroring `re.sub(r"\s+", " ", text)`. -/
def collapseWS : Bool → List Char → List Char
  | _, [] => []
  | prevWS, c :: rest =>
    if c.isWhitespace then
      if prevWS then collapseWS true rest else ' ' :: collapseWS true rest
    else c :: collapseWS false rest

/-- Strip leading and trailing spaces (after collapsing, the only whitespace
left is the single space character), mirroring `str.strip`. -/
def stripSp (l : List Char) : List Char :=
  ((l.dropWhile (fun c => c = ' ')).reverse.dropWhile (fun c => c = ' ')).reverse

/-- `scraper.clean_text`: collapse every whitespace run to one space and trim. -/
def clean_text (s : String) : String :=
  String.mk (stripSp (collapseWS false s.data))

/-- Python `" ".join(parts)`. -/
def joinSp : List String → String
  | [] => ""
  | [s] => s
  | s :: t :: rest => s ++ " " ++ joinSp (t :: rest)

/-- Maximal runs of characters satisfying `p`, in order — the common core of
Python `str.split()` and `re.findall` of a character-class pattern.  `cur`
holds the current run, reversed. -/
def runsByAux (p : Char → Bool) (cur : List Char) : List Char → List String
  | [] => if cur.isEmpty then [] else [String.mk cur.reverse]
  | c :: rest =>
    if p c then runsByAux p (c :: cur) rest
    else if cur.isEmpty then runsByAux p [] rest
    else String.mk cur.reverse :: runsByAux p [] rest

/-- Python `text.split()`: maximal runs of non-whitespace characters. -/
def pySplit (s : String) : List String :=
  runsByAux (fun c => !c.isWhitespace) [] s.data

/-- The character class actually denoted by the source's pattern
`r"[\\w']+"` (`sentiment.py` line 29).  In a raw string the pattern contains
two backslashes, so the regex class holds a literal backslash, the letter
`w` and the apostrophe — not word characters. -/
def buggyWordClass (c : Char) : Bool :=
  c == '\\' || c == 'w' || c == '\''

/-- `re.findall(r"[\\w']+", text)` as compiled from the source text. -/
def pyFindallTokens (s : String) : List String :=
  runsByAux buggyWordClass [] s.data

/-- Modelled from the spec: the word-like token class the spec (and claim C1)
describe — "maximal runs of alphanumeric or apostrophe characters". -/
def specWordClass (c : Char) : Bool :=
  c.isAlphanum || c == '\''

/-- Modelled from the spec: the reduction to word-like tokens that the spec
says `score` performs on its input. -/
def specWordTokens (s : String) : List String :=
  runsByAux specWordClass [] s.data

/-- Python string lowercasing (`str.lower`), ASCII as used by the lexicon. -/
def lowerStr (s : String) : String :=
  String.map Char.toLower s

/-! ## `sentiment.py` -/

/-- `sentiment.POSITIVE_WORDS`. -/
def POSITIVE_WORDS : List String :=
  ["buy", "long", "up", "bull", "bullish", "gain", "gains", "profit",
   "profits", "green", "strong", "beat", "beats", "outperform", "great",
   "good", "positive", "surge", "rally"]

/-- `sentiment.NEGATIVE_WORDS`. -/
def NEGATIVE_WORDS : List String :=
  ["sell", "short", "down", "bear", "bearish", "loss", "losses", "red",
   "weak", "miss", "missed", "underperform", "bad", "negative", "fall",
   "plunge", "crash"]

/-- The dict returned by `simple_lexicon_score`: ratios are exact rationals,
the compound score lives in `ℝ` because of `math.sqrt`. -/
structure LexScore where
  compound : ℝ
  pos : ℚ
  neg : ℚ
  neu : ℚ

/-- `sentiment.simple_lexicon_score` (lines 99–116): whitespace-tokenise and
lowercase, count hits against the two word sets, ratios over
`total = max(len(tokens), 1)`, compound `(pos_hits - neg_hits)/sqrt(total)`
guarded by `if total:`. -/
noncomputable def simple_lexicon_score (text : String) : LexScore :=
  let tokens := (pySplit text).map lowerStr
  let total : ℕ := max tokens.length 1
  let pos_hits : ℕ := tokens.countP (fun t => decide (t ∈ POSITIVE_WORDS))
  let neg_hits : ℕ := tokens.countP (fun t => decide (t ∈ NEGATIVE_WORDS))
  let neu_hits : ℤ := (total : ℤ) - (pos_hits : ℤ) - (neg_hits : ℤ)
  { compound :=
      if total ≠ 0 then ((pos_hits : ℝ) - (neg_hits : ℝ)) / Real.sqrt (total : ℝ) else 0,
    pos := (pos_hits : ℚ) / (total : ℚ),
    neg := (neg_hits : ℚ) / (total : ℚ),
    neu := ((max neu_hits 0 : ℤ) : ℚ) / (total : ℚ) }

open Classical in
/-- `sentiment.label_from_compound` (lines 47–52): fixed ±0.05 thresholds. -/
noncomputable def label_from_compound (c : ℝ) : String :=
  if c ≥ 5 / 100 then "positive"
  else if c ≤ -(5 / 100) then "negative"
  else "neutral"

/-- The dict returned by `SentimentAnalyzer.score`. -/
structure ScoreResult where
  compound : ℝ
  pos : ℚ
  neg : ℚ
  neu : ℚ
  label : String

/-- `SentimentAnalyzer.score` (lines 28–44) on the offline path: VADER is an
optional external dependency (`self._vader is None`), so the fallback branch
is the embedded one.  The input is first reduced with the source's actual
`re.findall(r"[\\w']+", ...)` pattern. -/
noncomputable def score (text : String) : ScoreResult :=
  let cleaned := joinSp (pyFindallTokens text)
  if cleaned = "" then
    { compound := 0, pos := 0, neg := 0, neu := 1, label := "neutral" }
  else
    let s := simple_lexicon_score cleaned
    { compound := s.compound, pos := s.pos, neg := s.neg, neu := s.neu,
      label := label_from_compound s.compound }

/-- The algebraic contract of claim C2 for one input text, stated over the
fallback scorer's own token sequence. -/
def C2Prop (text : String) : Prop :=
  let tokens := (pySplit text).map lowerStr
  let total := tokens.length
  let pos_hits := tokens.countP (fun t => decide (t ∈ POSITIVE_WORDS))
  let neg_hits := tokens.countP (fun t => decide (t ∈ NEGATIVE_WORDS))
  let s := simple_lexicon_score text
  s.pos = (pos_hits : ℚ) / (total : ℚ)
  ∧ s.neg = (neg_hits : ℚ) / (total : ℚ)
  ∧ s.neu = ((max ((total : ℤ) - (pos_hits : ℤ) - (neg_hits : ℤ)) 0 : ℤ) : ℚ) / (total : ℚ)
  ∧ s.pos + s.neg + s.neu = 1
  ∧ s.compound = ((pos_hits : ℝ) - (neg_hits : ℝ)) / Real.sqrt ((max total 1 : ℕ) : ℝ)
  ∧ (s.compound ≥ 5 / 100 → label_from_compound s.compound = "positive")
  ∧ (s.compound ≤ -(5 / 100) → label_from_compound s.compound = "negative")
  ∧ (-(5 / 100) < s.compound → s.compound < 5 / 100 →
      label_from_compound s.compound = "neutral")

/-! ## `scraper.py` — the `Post` record and the static backend -/

/-- `scraper.Post`: the shared record all backends emit. -/
structure Post where
  source_url : String
  page_url : String
  post_id : Option String
  author : Option String
  posted_at : Option String
  heading : Option String
  text : String
deriving DecidableEq

/-- Python `a or b` on two optional strings: `None` and `""` are falsy. -/
def pyOr (a b : Option String) : Option String :=
  match a with
  | some s => if s = "" then b else some s
  | none => b

/-- Python `a or b` where the fallback is a plain string. -/
def pyOrS (a : Option String) (b : String) : String :=
  match a with
  | some s => if s = "" then b else s
  | none => b

/-- A descendant node as seen by `_find_first_text`: the joined attribute
values (`" ".join(child.attrs.values())`) and the node's stripped strings. -/
structure SChild where
  attrs : String
  strings : List String
deriving DecidableEq

/-- A candidate post block as seen by the static backend once BeautifulSoup
has parsed the page: tag name, the attributes the selectors and `post_id`
lookup read, its stripped strings, and its descendants. -/
structure SElement where
  tag : String
  idAttr : Option String
  classAttr : Option String
  dataPostId : Option String
  dataMsgid : Option String
  strings : List String
  children : List SChild
deriving DecidableEq

/-- `l` starts with `pre` (character lists). -/
def leadsList : List Char → List Char → Bool
  | [], _ => true
  | _ :: _, [] => false
  | a :: as, b :: bs => a == b && leadsList as bs

/-- Substring test used for the CSS `[attr*='kw']` selectors and the keyword
scan of `_find_first_text`. -/
def hasSubAux (needle : List Char) : List Char → Bool
  | [] => leadsList needle []
  | c :: rest => leadsList needle (c :: rest) || hasSubAux needle rest

/-- `needle` occurs as a contiguous substring of `hay`. -/
def hasSub (hay needle : String) : Bool :=
  hasSubAux needle.data hay.data

/-- Attribute-value substring match (missing attribute never matches). -/
def attrSub (a : Option String) (kw : String) : Bool :=
  match a with
  | some v => hasSub v kw
  | none => false

/-- The tag restriction `div`/`li`/`article` shared by the selector groups. -/
def tagIn (el : SElement) : Bool :=
  ["div", "li", "article"].contains el.tag

/-- Selector group `div[id*=kw], li[id*=kw], article[id*=kw]`. -/
def sel_id (kw : String) (el : SElement) : Bool :=
  tagIn el && attrSub el.idAttr kw

/-- Selector group `div[class*=kw], li[class*=kw], article[class*=kw]`. -/
def sel_class (kw : String) (el : SElement) : Bool :=
  tagIn el && attrSub el.classAttr kw

/-- Selector `[data-post-id], [data-msgid]`. -/
def sel_data (el : SElement) : Bool :=
  el.dataPostId.isSome || el.dataMsgid.isSome

/-- The cleaned text of an element: `clean_text(" ".join(el.stripped_strings))`. -/
def elText (el : SElement) : String :=
  clean_text (joinSp el.strings)

/-- First selector pattern yielding any match wins — no merging. -/
def firstNonEmptyFilter (els : List SElement) : List (SElement → Bool) → List SElement
  | [] => []
  | p :: rest =>
    let m := els.filter p
    if m.isEmpty then firstNonEmptyFilter els rest else m

/-- Fallback of `_find_post_elements`: sizeable `article`/`li`/`div` blocks
whose cleaned text exceeds 80 characters. -/
def fallback_candidates (els : List SElement) : List SElement :=
  els.filter (fun el =>
    (["article", "li", "div"].contains el.tag) && decide (80 < (elText el).length))

/-- `MoneycontrolScraper._find_post_elements` (lines 86–109): the prioritized
selector list, then the text-length fallback. -/
def find_post_elements (els : List SElement) : List SElement :=
  let primary := firstNonEmptyFilter els
    [sel_id "cmt", sel_class "cmt", sel_id "comment", sel_class "comment",
     sel_id "post", sel_class "post", sel_data]
  if primary.isEmpty then fallback_candidates els else primary

/-- `MoneycontrolScraper._find_first_text` (lines 111–124): first descendant
whose lowercased attribute text contains a keyword and whose cleaned text is
non-empty. -/
def find_first_text (kws : List String) : List SChild → Option String
  | [] => none
  | c :: rest =>
    if kws.any (fun kw => hasSub (lowerStr c.attrs) kw) then
      let t := clean_text (joinSp c.strings)
      if t = "" then find_first_text kws rest else some t
    else find_first_text kws rest

/-- The loop body of `MoneycontrolScraper.parse_posts` (lines 61–84) over the
already-discovered elements, threading the per-call `seen_text` set. -/
def parse_posts_aux (page_url source_url : String) (seen : List String) :
    List SElement → List Post
  | [] => []
  | el :: rest =>
    let text := elText el
    if text = "" ∨ text ∈ seen then parse_posts_aux page_url source_url seen rest
    else
      { source_url := source_url, page_url := page_url,
        post_id := pyOr (pyOr el.idAttr el.dataPostId) el.dataMsgid,
        author := find_first_text ["author", "user", "name", "by"] el.children,
        posted_at := find_first_text ["time", "date", "posted"] el.children,
        heading := find_first_text ["heading", "title"] el.children,
        text := text } :: parse_posts_aux page_url source_url (text :: seen) rest

/-- `MoneycontrolScraper.parse_posts` (lines 57–84): element discovery, then
extraction with a fresh `seen_text` set per call. -/
def parse_posts (els : List SElement) (page_url source_url : String) : List Post :=
  parse_posts_aux page_url source_url [] (find_post_elements els)

/-! ## `selenium_scraper.py` — the dynamic backend -/

/-- `SeleniumMoneycontrolScraper.parse_posts` (lines 65–97): heading and body
node lists are paired positionally; a post is emitted per index in range of
either list when at least one of heading/body is non-empty.  Node contents
enter as the raw `get_text` strings. -/
def sel_parse_posts (hs ts : List String) (page_url source_url : String) : List Post :=
  (List.range (max hs.length ts.length)).filterMap (fun idx =>
    let heading : Option String := (hs.get? idx).map clean_text
    let body : String := ((ts.get? idx).map clean_text).getD ""
    if heading.getD "" = "" ∧ body = "" then none
    else some { source_url := source_url, page_url := page_url, post_id := none,
                author := none, posted_at := none, heading := heading, text := body })

/-- `SeleniumMoneycontrolScraper._scroll_to_load_more` (lines 109–137).  The
mocked DOM is a pair of sequences: `countAt i` (resp. `heightAt i`) is the
matched-element count (resp. page height) observed after the `i`-th scroll,
with index 0 the pre-loop measurement.  The wait succeeds exactly when the
count strictly increased; otherwise it times out and `attempts` is
incremented; then the height check increments `attempts` again if the height
is unchanged.  Fuel is the remaining allowance of the `loops < scroll_limit`
cap; the result is the total number of scroll iterations performed. -/
def scrollAux (countAt heightAt : ℕ → ℕ) (smax : ℕ) :
    ℕ → ℕ → ℕ → ℕ → ℕ → ℕ
  | 0, loops, _, _, _ => loops
  | fuel + 1, loops, attempts, last_count, last_height =>
    if attempts < smax then
      let loops2 := loops + 1
      let c := countAt loops2
      let attempts1 := if last_count < c then 0 else attempts + 1
      let lc2 := if last_count < c then c else last_count
      let h := heightAt loops2
      let attempts2 := if h = last_height then attempts1 + 1 else attempts1
      let lh2 := if h = last_height then last_height else h
      scrollAux countAt heightAt smax fuel loops2 attempts2 lc2 lh2
    else loops

/-- The scroll loop entry point: initial measurements, zero counters. -/
def scroll_to_load_more (countAt heightAt : ℕ → ℕ) (smax slimit : ℕ) : ℕ :=
  scrollAux countAt heightAt smax slimit 0 0 (countAt 0) (heightAt 0)

/-- The claim-C6 mock DOM: the element count increases on each of the first 2
scroll iterations and never afterwards. -/
def c6mockCount (n : ℕ) : ℕ := min n 2

/-- The claim-C6 mock DOM: the page height changes on each of the first 2
scroll iterations and never afterwards. -/
def c6mockHeight (n : ℕ) : ℕ := min n 2

/-! ## `api_scraper.py` — the API backend -/

/-- One message of the JSON envelope `{data:{list:[...]}}`; absent JSON
fields are `none`. -/
structure ApiMsg where
  heading : Option String
  message : Option String
  urlThread : Option String
  msg_id : Option String
  user_nick_name : Option String
  uidNickname : Option String
  ent_date : Option String
  repost_date : Option String
deriving DecidableEq

/-- The per-message body of `ApiMoneycontrolScraper.fetch_posts` (lines
45–60): clean heading and message, skip when both are empty, otherwise build
the `Post` with the Python `or`-fallbacks of the source. -/
def msgToPost (start_url : String) (m : ApiMsg) : Option Post :=
  let heading := clean_text (m.heading.getD "")
  let text := clean_text (m.message.getD "")
  if heading = "" ∧ text = "" then none
  else some
    { source_url := start_url,
      page_url := pyOrS m.urlThread start_url,
      post_id := some (pyOrS m.msg_id ""),
      author := pyOr m.user_nick_name m.uidNickname,
      posted_at := pyOr m.ent_date m.repost_date,
      heading := if heading = "" then none else some heading,
      text := text }

/-- The `for msg in batch` loop of `fetch_posts`, including the early
`return posts` once `max_messages` (when non-zero) is reached.  The Boolean
records whether that early return fired. -/
def processBatch (start_url : String) (maxMsgs : ℕ) (acc : List Post) :
    List ApiMsg → List Post × Bool
  | [] => (acc, false)
  | m :: rest =>
    match msgToPost start_url m with
    | none => processBatch start_url maxMsgs acc rest
    | some p =>
      let acc2 := acc ++ [p]
      if maxMsgs ≠ 0 ∧ maxMsgs ≤ acc2.length then (acc2, true)
      else processBatch start_url maxMsgs acc2 rest

/-- The `while True` pagination of `fetch_posts` (lines 30–68).  The feed
maps a requested `limitStart` offset to the returned batch; the request log
collects the offsets actually requested; `none` models running out of fuel
without the loop having terminated. -/
def fetchLoop (feed : ℕ → List ApiMsg) (limit maxMsgs : ℕ) (start_url : String) :
    ℕ → ℕ → List Post → List ℕ → Option (List Post × List ℕ)
  | 0, _, _, _ => none
  | fuel + 1, offset, acc, reqs =>
    let reqs2 := reqs ++ [offset]
    let batch := feed offset
    if batch.isEmpty then some (acc, reqs2)
    else
      let pr := processBatch start_url maxMsgs acc batch
      if pr.2 then some (pr.1, reqs2)
      else if batch.length < limit then some (pr.1, reqs2)
      else fetchLoop feed limit maxMsgs start_url fuel (offset + limit) pr.1 reqs2

/-- `int()` of a run of decimal digits. -/
def digitsVal (l : List Char) : ℕ :=
  l.foldl (fun a c => a * 10 + (c.toNat - '0'.toNat)) 0

/-- `api_scraper.parse_section_id` (lines 71–75): `re.search` of
`-([0-9]+)(?:\.html)?` scans left to right; the first hyphen immediately
followed by a digit wins, the group is the maximal digit run after it; the
optional `.html` tail is outside the group.  `none` models the
`ValueError`. -/
def sectionScan : List Char → Option ℕ
  | [] => none
  | c :: rest =>
    if c = '-' then
      match rest with
      | [] => none
      | d :: ds =>
        if d.isDigit then some (digitsVal (d :: ds.takeWhile Char.isDigit))
        else sectionScan rest
    else sectionScan rest

/-- `parse_section_id` on a whole URL. -/
def parse_section_id (url : String) : Option ℕ :=
  sectionScan url.data

/-- No adjacent hyphen-digit pair occurs in the list — i.e. the regex
`-[0-9]+` has no match starting inside it. -/
def hdPairFree : List Char → Bool
  | [] => true
  | [_] => true
  | a :: b :: t =>
    if a = '-' then
      if b.isDigit then false else hdPairFree (b :: t)
    else hdPairFree (b :: t)

/-- Modelled from the spec: "the integer value of the thread URL's trailing
numeric segment preceding an optional `.html` suffix" — strip a final
`.html` if present, then read the maximal trailing digit run. -/
def specTrailingSectionId (url : String) : Option ℕ :=
  let l := url.data
  let core := if leadsList "lmth.".data l.reverse then (l.reverse.drop 5).reverse else l
  let ds := (core.reverse.takeWhile Char.isDigit).reverse
  if ds.isEmpty then none else some (digitsVal ds)

/-! ## `pipeline.py` -/

/-- One row of the run-wide collection built by `_append_posts`: the seven
`Post` fields plus the five sentiment fields. -/
structure EnrichedPost where
  source_url : String
  page_url : String
  post_id : Option String
  author : Option String
  posted_at : Option String
  heading : Option String
  text : String
  sentiment_compound : ℝ
  sentiment_label : String
  sentiment_pos : ℚ
  sentiment_neg : ℚ
  sentiment_neu : ℚ

/-- The Python `" ".join([part for part in [post.heading, post.text] if part])`
of `_append_posts` — which is also, word for word, the text claim C10 says
each post is scored on: heading and text concatenated with a single space,
absent or empty parts omitted. -/
def specContent (p : Post) : String :=
  joinSp
    ((match p.heading with
       | some h => if h = "" then [] else [h]
       | none => []) ++ (if p.text = "" then [] else [p.text]))

/-- `pipeline._append_posts` (lines 117–136).  The scorer is passed in, as
in the source (`analyzer`), so the embedding is valid for any scorer
satisfying the `score` contract.  The scored text is `content or post.text`
with `content := specContent post`. -/
def appendPosts (scoreFn : String → ScoreResult) (posts : List Post) : List EnrichedPost :=
  posts.map (fun post =>
    let content := specContent post
    let sent := scoreFn (if content = "" then post.text else content)
    { source_url := post.source_url, page_url := post.page_url,
      post_id := post.post_id, author := post.author, posted_at := post.posted_at,
      heading := post.heading, text := post.text,
      sentiment_compound := sent.compound, sentiment_label := sent.label,
      sentiment_pos := sent.pos, sentiment_neg := sent.neg,
      sentiment_neu := sent.neu })

/-- The insertion-ordered key list of the `defaultdict` grouping of
`aggregate` (lines 91–93): one key per distinct `source_url`, in order of
first appearance. -/
def groupKeys (posts : List EnrichedPost) : List String :=
  posts.foldl (fun ks p => if p.source_url ∈ ks then ks else ks ++ [p.source_url]) []

/-- The summary record `aggregate` emits per source. -/
structure SourceSummary where
  source_url : String
  posts : ℕ
  avg_compound : ℝ
  positive_ratio : ℚ
  negative_ratio : ℚ
  neutral_ratio : ℚ

/-- The per-group body of `aggregate` (lines 96–113): skip empty groups
(`if not count: continue`), else mean compound and the three label ratios
(`neutral = count - pos - neg`, an integer subtraction). -/
noncomputable def mkSummary (posts : List EnrichedPost) (url : String) :
    Option SourceSummary :=
  let group := posts.filter (fun p => p.source_url = url)
  let count := group.length
  if count = 0 then none
  else
    let pos := group.countP (fun p => decide (p.sentiment_label = "positive"))
    let neg := group.countP (fun p => decide (p.sentiment_label = "negative"))
    some
      { source_url := url, posts := count,
        avg_compound := (group.map (fun p => p.sentiment_compound)).sum / (count : ℝ),
        positive_ratio := (pos : ℚ) / (count : ℚ),
        negative_ratio := (neg : ℚ) / (count : ℚ),
        neutral_ratio := (((count : ℤ) - (pos : ℤ) - (neg : ℤ) : ℤ) : ℚ) / (count : ℚ) }

/-- `pipeline.aggregate` (lines 90–114). -/
noncomputable def aggregate (posts : List EnrichedPost) : List SourceSummary :=
  (groupKeys posts).filterMap (mkSummary posts)

/-- The per-claim contract C3 states for one emitted summary. -/
def C3PerSummary (posts : List EnrichedPost) (s : SourceSummary) : Prop :=
  let g := posts.filter (fun p => p.source_url = s.source_url)
  let N := g.length
  let P := g.countP (fun p => decide (p.sentiment_label = "positive"))
  let Ng := g.countP (fun p => decide (p.sentiment_label = "negative"))
  1 ≤ s.posts ∧ s.posts = N
  ∧ s.avg_compound = (g.map (fun p => p.sentiment_compound)).sum / (N : ℝ)
  ∧ s.positive_ratio = (P : ℚ) / (N : ℚ)
  ∧ s.negative_ratio = (Ng : ℚ) / (N : ℚ)
  ∧ s.neutral_ratio = (((N : ℤ) - (P : ℤ) - (Ng : ℤ) : ℤ) : ℚ) / (N : ℚ)
  ∧ s.positive_ratio + s.negative_ratio + s.neutral_ratio = 1

/-- `Except.ok` test for the per-URL processing outcome. -/
def exceptIsOk (e : Except String (List EnrichedPost)) : Bool :=
  match e with
  | .ok _ => true
  | .error _ => false

/-- The per-URL loop of `run_pipeline` (lines 49–72 for either backend):
each URL's whole fetch/parse/append step is a fallible action; an exception
puts the URL on the failed list and the loop continues.  Rows and failed
URLs are accumulated in processing order. -/
def urlLoop (process : String → Except String (List EnrichedPost)) :
    List String → List EnrichedPost × List String
  | [] => ([], [])
  | u :: rest =>
    match process u with
    | .ok rows =>
      let r := urlLoop process rest
      (rows ++ r.1, r.2)
    | .error _ =>
      let r := urlLoop process rest
      (r.1, u :: r.2)

/-- `run_pipeline` (lines 45–87) around the loop: the `try/finally` runs the
backend `close()` wrapped in `try/except Exception: pass`, so the cleanup
outcome — ok or error — is inspected and then discarded either way. -/
def run_pipeline (process : String → Except String (List EnrichedPost))
    (close : Except String Unit) (urls : List String) :
    Except String (List EnrichedPost × List String) :=
  let body := urlLoop process urls
  match close with
  | .ok _ => .ok body
  | .error _ => .ok body

/-! ## Concrete inputs for the scenario claims and witnesses -/

/-- A run-of-the-mill enriched post used to instantiate claim C3. -/
noncomputable def c3posts0 : List EnrichedPost :=
  [{ source_url := "https://mmb.moneycontrol.com/forum-topics/topic-1.html",
     page_url := "https://mmb.moneycontrol.com/forum-topics/topic-1.html",
     post_id := none, author := none, posted_at := none, heading := none,
     text := "looks strong", sentiment_compound := 1, sentiment_label := "positive",
     sentiment_pos := 1, sentiment_neg := 0, sentiment_neu := 0 }]

/-- An API message with non-empty heading and text, as in the C4 scenario. -/
def c4msg : ApiMsg :=
  { heading := some "Update", message := some "good stock", urlThread := none,
    msg_id := none, user_nick_name := none, uidNickname := none,
    ent_date := none, repost_date := none }

/-- The C4 mock feed: batches of sizes 100, 100, 40 at offsets 0, 100, 200. -/
def c4feed (off : ℕ) : List ApiMsg :=
  if off = 0 then List.replicate 100 c4msg
  else if off = 100 then List.replicate 100 c4msg
  else if off = 200 then List.replicate 40 c4msg
  else []

/-- A single-message feed used by the C8 witness. -/
def c8feed (off : ℕ) : List ApiMsg :=
  if off = 0 then [c4msg] else []

/-- The post the C8 witness feed produces. -/
def c8post : Post :=
  { source_url := "u", page_url := "u", post_id := some "", author := none,
    posted_at := none, heading := some "Update", text := "good stock" }

/-- A static-backend element with the given class attribute and text. -/
def mkCmtEl (s : String) : SElement :=
  { tag := "div", idAttr := none, classAttr := some "cmtBlock",
    dataPostId := none, dataMsgid := none, strings := [s], children := [] }

/-- The C9 scenario page: three distinct-text `div[class*='cmt']` elements
plus one element duplicating the first element's text. -/
def c9els : List SElement :=
  [mkCmtEl "first message", mkCmtEl "second message", mkCmtEl "third message",
   mkCmtEl "first message"]

/-- A one-element page whose text repeats across two separate calls. -/
def c9elsDup : List SElement :=
  [mkCmtEl "repeated across pages"]

/-- The element list used by the C8 witness for the static backend. -/
def c8els : List SElement :=
  [mkCmtEl "hello world"]

/-- The post the C8 witness element list produces. -/
def c8staticPost : Post :=
  { source_url := "s", page_url := "p", post_id := none, author := none,
    posted_at := none, heading := none, text := "hello world" }

/-- The post the C8 witness heading/body lists produce. -/
def c8selPost : Post :=
  { source_url := "s", page_url := "p", post_id := none, author := none,
    posted_at := none, heading := some "Head", text := "Body" }

/-! ## Lemmas and claim theorems -/

lemma label_from_compound_pos (c : ℝ) (h : c ≥ 5 / 100) :
    label_from_compound c = "positive" := by
  unfold label_from_compound
  rw [if_pos h]

lemma label_from_compound_neg (c : ℝ) (h : c ≤ -(5 / 100)) :
    label_from_compound c = "negative" := by
  unfold label_from_compound
  rw [if_neg (by intro hge; linarith), if_pos h]

lemma label_from_compound_neu (c : ℝ) (h1 : -(5 / 100) < c) (h2 : c < 5 / 100) :
    label_from_compound c = "neutral" := by
  unfold label_from_compound
  rw [if_neg (by intro hge; linarith), if_neg (by intro hle; linarith)]

lemma pos_mem_not_neg (a : String) (hp : a ∈ POSITIVE_WORDS) :
    a ∉ NEGATIVE_WORDS := by
  unfold POSITIVE_WORDS at hp
  fin_cases hp <;> decide

lemma countP_pos_neg_le (l : List String) :
    l.countP (fun t => decide (t ∈ POSITIVE_WORDS))
      + l.countP (fun t => decide (t ∈ NEGATIVE_WORDS)) ≤ l.length := by
  induction l with
  | nil => simp
  | cons a l ih =>
    simp only [List.countP_cons, List.length_cons]
    by_cases hp : a ∈ POSITIVE_WORDS
    · have hnn : a ∉ NEGATIVE_WORDS := pos_mem_not_neg a hp
      simp [hp, hnn]
      omega
    · by_cases hq : a ∈ NEGATIVE_WORDS <;> simp [hp, hq] <;> omega

/-- C1 (code_bug evidence): `SentimentAnalyzer.score` is supposed to reduce
its input to word-like tokens (alphanumeric + apostrophes) and return the
fixed neutral result exactly when that reduction is empty.  The source's raw
string `r"[\\w']+"` instead denotes the class {backslash, `w`, apostrophe},
so the input `"good"` — whose word-like reduction is the non-empty `"good"`,
a positive lexicon word — reduces to the empty string and takes the early
neutral return. -/
theorem c1_score_tokenization_bug :
    score "good" = { compound := 0, pos := 0, neg := 0, neu := 1, label := "neutral" }
    ∧ specWordTokens "good" = ["good"]
    ∧ pyFindallTokens "good" = [] := by
  refine ⟨rfl, by decide, by decide⟩

/-- C2: for every input whose (lowercased, whitespace-split) token sequence
is non-empty, the fallback lexicon scorer returns `pos`, `neg`, `neu` equal
to `pos_hits/total`, `neg_hits/total`, `max(total - pos_hits - neg_hits, 0)/total`,
these sum to exactly 1, the compound equals
`(pos_hits - neg_hits)/sqrt(max(total, 1))`, and `label_from_compound`
applied to that compound obeys the ±0.05 threshold rule. -/
theorem c2_fallback_lexicon_algebra (text : String)
    (h : (pySplit text).map lowerStr ≠ []) : C2Prop text := by
  unfold C2Prop
  set tokens := (pySplit text).map lowerStr with htok
  have hT : 0 < tokens.length := List.length_pos.mpr h
  have hTne : tokens.length ≠ 0 := Nat.pos_iff_ne_zero.mp hT
  have hmax : max tokens.length 1 = tokens.length := Nat.max_eq_left hT
  set p := tokens.countP (fun t => decide (t ∈ POSITIVE_WORDS)) with hp
  set n := tokens.countP (fun t => decide (t ∈ NEGATIVE_WORDS)) with hn
  have hple : p + n ≤ tokens.length := countP_pos_neg_le tokens
  have hQ : ((tokens.length : ℚ)) ≠ 0 := Nat.cast_ne_zero.mpr hTne
  have e1 : (simple_lexicon_score text).pos
      = (p : ℚ) / ((max tokens.length 1 : ℕ) : ℚ) := rfl
  have e2 : (simple_lexicon_score text).neg
      = (n : ℚ) / ((max tokens.length 1 : ℕ) : ℚ) := rfl
  have e3 : (simple_lexicon_score text).neu
      = ((max (((max tokens.length 1 : ℕ) : ℤ) - (p : ℤ) - (n : ℤ)) 0 : ℤ) : ℚ)
          / ((max tokens.length 1 : ℕ) : ℚ) := rfl
  have e4 : (simple_lexicon_score text).compound
      = if (max tokens.length 1 : ℕ) ≠ 0 then
          ((p : ℝ) - (n : ℝ)) / Real.sqrt ((max tokens.length 1 : ℕ) : ℝ)
        else 0 := rfl
  rw [hmax] at e1 e2 e3 e4
  have hmaxZ : max ((tokens.length : ℤ) - (p : ℤ) - (n : ℤ)) 0
      = (tokens.length : ℤ) - (p : ℤ) - (n : ℤ) := by
    apply max_eq_left
    omega
  refine ⟨e1, e2, by rw [e3, hmaxZ], ?_, ?_, ?_, ?_, ?_⟩
  · rw [e1, e2, e3, hmaxZ]
    push_cast
    field_simp
  · rw [e4, if_pos hTne, hmax]
  · intro hge
    exact label_from_compound_pos _ hge
  · intro hle
    exact label_from_compound_neg _ hle
  · intro h1 h2
    exact label_from_compound_neu _ h1 h2

/-- C2 witness: instantiated at the one-token input `"buy"`. -/
theorem c2_fallback_lexicon_algebra_witness :
    ((pySplit "buy").map lowerStr ≠ []) ∧ C2Prop "buy" :=
  ⟨by decide, c2_fallback_lexicon_algebra "buy" (by decide)⟩

/-- C6 (code_bug evidence): on the claimed mock DOM — element count and page
height both advance on the first 2 scroll iterations and never afterwards —
with `scroll_max = 3` and `scroll_limit ∈ {5, 20}`, the embedded scroll loop
performs 4 iterations, not the claimed 2+3=5: a stalled iteration increments
the no-progress counter twice (once for the wait timeout, once for the
unchanged height), so the counter reaches `scroll_max` after only two
stalled scrolls. -/
theorem c6_scroll_loop_count :
    scroll_to_load_more c6mockCount c6mockHeight 3 5 = 4
    ∧ scroll_to_load_more c6mockCount c6mockHeight 3 20 = 4
    ∧ scroll_to_load_more c6mockCount c6mockHeight 3 5 ≠ 5 := by
  decide

lemma processBatch_zero_no_early (u : String) :
    ∀ (b : List ApiMsg) (acc : List Post), (processBatch u 0 acc b).2 = false := by
  intro b
  induction b with
  | nil => intro acc; rfl
  | cons m rest ih =>
    intro acc
    cases hm : msgToPost u m with
    | none => simp [processBatch, hm, ih]
    | some p => simp [processBatch, hm, ih]

set_option maxRecDepth 40000 in
/-- C4: with no message cap, pagination terminates exactly when a fetched
batch is empty or smaller than `limit_count` (the request at that offset is
the last one issued), otherwise the offset advances by `limit_count`; and
on the mock feed with batch sizes [100, 100, 40], `limit_count = 100`,
`max_messages = 0`, the loop returns exactly 240 posts having requested
only the offsets 0, 100 and 200. -/
theorem c4_api_pagination :
    (∀ (feed : ℕ → List ApiMsg) (limit : ℕ) (u : String) (fuel offset : ℕ)
        (acc : List Post) (reqs : List ℕ),
        (feed offset = [] →
          fetchLoop feed limit 0 u (fuel + 1) offset acc reqs
            = some (acc, reqs ++ [offset]))
      ∧ (feed offset ≠ [] → (feed offset).length < limit →
          fetchLoop feed limit 0 u (fuel + 1) offset acc reqs
            = some ((processBatch u 0 acc (feed offset)).1, reqs ++ [offset]))
      ∧ (feed offset ≠ [] → limit ≤ (feed offset).length →
          fetchLoop feed limit 0 u (fuel + 1) offset acc reqs
            = fetchLoop feed limit 0 u fuel (offset + limit)
                (processBatch u 0 acc (feed offset)).1 (reqs ++ [offset])))
    ∧ (fetchLoop c4feed 100 0 "u" 10 0 [] []).map (fun r => (r.1.length, r.2))
        = some (240, [0, 100, 200]) := by
  constructor
  · intro feed limit u fuel offset acc reqs
    refine ⟨?_, ?_, ?_⟩
    · intro he
      simp [fetchLoop, he]
    · intro hne hlt
      have hie : (feed offset).isEmpty = false := by
        simpa [List.isEmpty_iff] using hne
      simp [fetchLoop, hie, processBatch_zero_no_early, hlt]
    · intro hne hge
      have hie : (feed offset).isEmpty = false := by
        simpa [List.isEmpty_iff] using hne
      have hnlt : ¬((feed offset).length < limit) := not_lt.mpr hge
      simp [fetchLoop, hie, processBatch_zero_no_early, hnlt]
  · decide

/-- C4 witness: the step characterisation applied to an everywhere-empty
feed at offset 7 — the single request ends pagination immediately. -/
theorem c4_api_pagination_witness :
    ((fun _ : ℕ => ([] : List ApiMsg)) 7 = [])
    ∧ fetchLoop (fun _ => []) 100 0 "u" 3 7 [] [] = some ([], [7]) :=
  ⟨rfl, (c4_api_pagination.1 (fun _ => []) 100 "u" 2 7 [] []).1 rfl⟩

lemma hdPairFree_cons (a : Char) (l : List Char) (h : hdPairFree (a :: l) = true) :
    hdPairFree l = true := by
  cases l with
  | nil => rfl
  | cons b t =>
    by_cases ha : a = '-'
    · subst ha
      cases hb : b.isDigit with
      | true => simp [hdPairFree, hb] at h
      | false => simpa [hdPairFree, hb] using h
    · simpa [hdPairFree, ha] using h

lemma hdPairFree_head (b : Char) (t : List Char)
    (h : hdPairFree ('-' :: b :: t) = true) : b.isDigit = false := by
  cases hb : b.isDigit with
  | true => simp [hdPairFree, hb] at h
  | false => rfl

lemma sectionScan_eq_none_iff : ∀ l : List Char,
    sectionScan l = none
      ↔ ¬ ∃ pre d rest, l = pre ++ '-' :: d :: rest ∧ d.isDigit = true := by
  intro l
  induction l with
  | nil =>
    constructor
    · rintro - ⟨pre, d, r, heq, -⟩
      cases pre <;> simp at heq
    · intro _
      rfl
  | cons c rest ih =>
    by_cases hc : c = '-'
    · subst hc
      cases rest with
      | nil =>
        constructor
        · rintro - ⟨pre, d, r, heq, -⟩
          rcases pre with - | ⟨a, pre'⟩
          · simp at heq
          · simp only [List.cons_append, List.cons.injEq] at heq
            rcases heq with ⟨-, heq2⟩
            cases pre' <;> simp at heq2
        · intro _
          rfl
      | cons d ds =>
        cases hd : d.isDigit with
        | true =>
          constructor
          · intro hsc
            rw [show sectionScan ('-' :: d :: ds)
                = some (digitsVal (d :: ds.takeWhile Char.isDigit)) from by
                  simp [sectionScan, hd]] at hsc
            exact Option.noConfusion hsc
          · intro hne
            exact absurd ⟨[], d, ds, rfl, hd⟩ hne
        | false =>
          have hstep : sectionScan ('-' :: d :: ds) = sectionScan (d :: ds) := by
            simp [sectionScan, hd]
          rw [hstep, ih]
          constructor
          · intro hno h
            obtain ⟨pre, e, r, heq, he⟩ := h
            rcases pre with - | ⟨a, pre'⟩
            · simp only [List.nil_append, List.cons.injEq] at heq
              rw [heq.2.1] at hd
              rw [hd] at he
              exact Bool.noConfusion he
            · simp only [List.cons_append, List.cons.injEq] at heq
              exact hno ⟨pre', e, r, heq.2, he⟩
          · intro hno h
            obtain ⟨pre, e, r, heq, he⟩ := h
            exact hno ⟨'-' :: pre, e, r, by simp [heq], he⟩
    · have hstep : sectionScan (c :: rest) = sectionScan rest := by
        simp [sectionScan, hc]
      rw [hstep, ih]
      constructor
      · intro hno h
        obtain ⟨pre, e, r, heq, he⟩ := h
        rcases pre with - | ⟨a, pre'⟩
        · simp only [List.nil_append, List.cons.injEq] at heq
          exact absurd heq.1 hc
        · simp only [List.cons_append, List.cons.injEq] at heq
          exact hno ⟨pre', e, r, heq.2, he⟩
      · intro hno h
        obtain ⟨pre, e, r, heq, he⟩ := h
        exact hno ⟨c :: pre, e, r, by simp [heq], he⟩

lemma sectionScan_append_first : ∀ (pre : List Char) (d : Char) (rest : List Char),
    d.isDigit = true → hdPairFree (pre ++ ['-']) = true →
    sectionScan (pre ++ '-' :: d :: rest)
      = some (digitsVal (d :: rest.takeWhile Char.isDigit)) := by
  intro pre
  induction pre with
  | nil =>
    intro d rest hd _
    simp [sectionScan, hd]
  | cons a pre' ih =>
    intro d rest hd hfree
    have hfree' : hdPairFree (pre' ++ ['-']) = true :=
      hdPairFree_cons a (pre' ++ ['-']) (by simpa using hfree)
    have hih := ih d rest hd hfree'
    by_cases ha : a = '-'
    · subst ha
      cases pre' with
      | nil =>
        have hdash : ('-' : Char).isDigit = false := by decide
        simp only [List.nil_append] at hih
        simp only [List.cons_append, List.nil_append]
        rw [show sectionScan ('-' :: '-' :: d :: rest)
            = sectionScan ('-' :: d :: rest) from by simp [sectionScan, hdash]]
        exact hih
      | cons b pre'' =>
        have hb : b.isDigit = false := by
          apply hdPairFree_head b (pre'' ++ ['-'])
          simpa using hfree
        simp only [List.cons_append] at hih ⊢
        rw [show sectionScan ('-' :: b :: (pre'' ++ '-' :: d :: rest))
            = sectionScan (b :: (pre'' ++ '-' :: d :: rest)) from by
              simp [sectionScan, hb]]
        exact hih
    · simp only [List.cons_append]
      rw [show sectionScan (a :: (pre' ++ '-' :: d :: rest))
          = sectionScan (pre' ++ '-' :: d :: rest) from by simp [sectionScan, ha]]
      exact hih

/-- C5 counterexample: the claim says `parse_section_id` returns the value
of the URL's trailing numeric segment (before an optional `.html`) and
raises exactly when no such segment exists.  On
`"stocks-2024-topic-999.html"` the code returns the first hyphen-led
segment 2024 while the trailing segment is 999; on `"12345.html"` a
trailing numeric segment exists but the code raises (no hyphen). -/
theorem c5_trailing_segment_counterexample :
    parse_section_id "stocks-2024-topic-999.html" = some 2024
    ∧ specTrailingSectionId "stocks-2024-topic-999.html" = some 999
    ∧ parse_section_id "12345.html" = none
    ∧ specTrailingSectionId "12345.html" = some 12345 := by
  decide

/-- C5 (amended): `parse_section_id` returns the integer value of the digit
run immediately following the first hyphen-followed-by-a-digit occurrence in
the URL (the leftmost `-[0-9]+` match, e.g. 12345 for `"topic-12345.html"`),
and raises `ValueError` exactly when the URL contains no hyphen immediately
followed by a digit. -/
theorem c5_first_hyphen_segment :
    (∀ url : String,
      (parse_section_id url = none
        ↔ ¬ ∃ pre d rest, url.data = pre ++ '-' :: d :: rest ∧ d.isDigit = true))
    ∧ (∀ (pre : List Char) (d : Char) (rest : List Char),
        d.isDigit = true → hdPairFree (pre ++ ['-']) = true →
        parse_section_id (String.mk (pre ++ '-' :: d :: rest))
          = some (digitsVal (d :: rest.takeWhile Char.isDigit)))
    ∧ parse_section_id "topic-12345.html" = some 12345
    ∧ parse_section_id "nodigits.html" = none := by
  refine ⟨?_, ?_, by decide, by decide⟩
  · intro url
    exact sectionScan_eq_none_iff url.data
  · intro pre d rest hd hfree
    exact sectionScan_append_first pre d rest hd hfree

/-- C5 witness: the leftmost-match description applied at
`"topic" ++ "-" ++ "12345.html"`. -/
theorem c5_first_hyphen_segment_witness :
    ('1'.isDigit = true)
    ∧ (hdPairFree ("topic".data ++ ['-']) = true)
    ∧ parse_section_id (String.mk ("topic".data ++ '-' :: '1' :: "2345.html".data))
        = some (digitsVal ('1' :: ("2345.html".data.takeWhile Char.isDigit))) :=
  ⟨by decide, by decide,
    c5_first_hyphen_segment.2.1 "topic".data '1' "2345.html".data (by decide) (by decide)⟩

lemma mem_groupKeys_foldl (posts : List EnrichedPost) :
    ∀ (init : List String) (k : String),
      k ∈ posts.foldl
            (fun ks p => if p.source_url ∈ ks then ks else ks ++ [p.source_url]) init
        ↔ k ∈ init ∨ ∃ p ∈ posts, p.source_url = k := by
  induction posts with
  | nil => intro init k; simp
  | cons p l ih =>
    intro init k
    rw [List.foldl_cons, ih]
    have hstep : k ∈ (if p.source_url ∈ init then init else init ++ [p.source_url])
        ↔ k ∈ init ∨ p.source_url = k := by
      by_cases hmem : p.source_url ∈ init
      · rw [if_pos hmem]
        constructor
        · exact fun h => Or.inl h
        · rintro (h | h)
          · exact h
          · exact h ▸ hmem
      · rw [if_neg hmem, List.mem_append, List.mem_singleton]
        constructor
        · rintro (h | h)
          · exact Or.inl h
          · exact Or.inr h.symm
        · rintro (h | h)
          · exact Or.inl h
          · exact Or.inr h.symm
    rw [hstep]
    simp only [List.mem_cons]
    constructor
    · rintro ((h | h) | ⟨q, hq, hurl⟩)
      · exact Or.inl h
      · exact Or.inr ⟨p, Or.inl rfl, h⟩
      · exact Or.inr ⟨q, Or.inr hq, hurl⟩
    · rintro (h | ⟨q, hq | hq, hurl⟩)
      · exact Or.inl (Or.inl h)
      · subst hq
        exact Or.inl (Or.inr hurl)
      · exact Or.inr ⟨q, hq, hurl⟩

lemma nodup_groupKeys_foldl (posts : List EnrichedPost) :
    ∀ init : List String,
      init.Nodup →
      (posts.foldl
        (fun ks p => if p.source_url ∈ ks then ks else ks ++ [p.source_url]) init).Nodup := by
  induction posts with
  | nil => intro init h; exact h
  | cons p l ih =>
    intro init h
    rw [List.foldl_cons]
    by_cases hmem : p.source_url ∈ init
    · rw [if_pos hmem]
      exact ih init h
    · rw [if_neg hmem]
      apply ih
      rw [List.nodup_append]
      exact ⟨h, List.nodup_singleton _, by simpa using hmem⟩

lemma mem_groupKeys (posts : List EnrichedPost) (k : String) :
    k ∈ groupKeys posts ↔ ∃ p ∈ posts, p.source_url = k := by
  unfold groupKeys
  rw [mem_groupKeys_foldl]
  simp

lemma mkSummary_spec (posts : List EnrichedPost) (k : String)
    (h : (posts.filter (fun p => p.source_url = k)).length ≠ 0) :
    ∃ s, mkSummary posts k = some s ∧ s.source_url = k ∧ C3PerSummary posts s := by
  unfold mkSummary
  rw [if_neg h]
  refine ⟨_, rfl, rfl, ?_⟩
  unfold C3PerSummary
  have hQ : ((posts.filter (fun p => p.source_url = k)).length : ℚ) ≠ 0 :=
    Nat.cast_ne_zero.mpr h
  refine ⟨Nat.one_le_iff_ne_zero.mpr h, rfl, rfl, rfl, rfl, rfl, ?_⟩
  push_cast
  field_simp

lemma aggregate_keys (posts : List EnrichedPost) :
    ∀ keys : List String,
      (∀ k ∈ keys, ∃ p ∈ posts, p.source_url = k) →
      (keys.filterMap (mkSummary posts)).map SourceSummary.source_url = keys := by
  intro keys
  induction keys with
  | nil => intro _; rfl
  | cons k ks ih =>
    intro hall
    obtain ⟨p, hp, hurl⟩ := hall k (by simp)
    have hg : (posts.filter (fun q => q.source_url = k)).length ≠ 0 := by
      have hmem : p ∈ posts.filter (fun q => q.source_url = k) :=
        List.mem_filter.mpr ⟨hp, by simp [hurl]⟩
      have := List.length_pos.mpr (List.ne_nil_of_mem hmem)
      omega
    obtain ⟨s, hs, hsk, -⟩ := mkSummary_spec posts k hg
    rw [List.filterMap_cons, hs]
    simp only [List.map_cons, hsk]
    rw [ih (fun k2 hk2 => hall k2 (by simp [hk2]))]

/-- C3: every summary emitted by `aggregate` belongs to a non-empty
`source_url` group and carries that group's size, mean compound, and
per-label ratios, which sum to exactly 1; moreover exactly one summary is
emitted per distinct `source_url` occurring among the posts (zero-count
groups never appear). -/
theorem c3_aggregate_summaries :
    (∀ (posts : List EnrichedPost) (s : SourceSummary),
      s ∈ aggregate posts → C3PerSummary posts s)
    ∧ (∀ posts : List EnrichedPost,
        ((aggregate posts).map SourceSummary.source_url).Nodup
        ∧ ∀ k, (k ∈ (aggregate posts).map SourceSummary.source_url
                  ↔ ∃ p ∈ posts, p.source_url = k)) := by
  constructor
  · intro posts s hs
    obtain ⟨k, hk, hsome⟩ := List.mem_filterMap.mp hs
    obtain ⟨p, hp, hurl⟩ := (mem_groupKeys posts k).mp hk
    have hg : (posts.filter (fun q => q.source_url = k)).length ≠ 0 := by
      have hmem : p ∈ posts.filter (fun q => q.source_url = k) :=
        List.mem_filter.mpr ⟨hp, by simp [hurl]⟩
      have := List.length_pos.mpr (List.ne_nil_of_mem hmem)
      omega
    obtain ⟨s2, hs2, -, hprop⟩ := mkSummary_spec posts k hg
    rw [hsome] at hs2
    exact (Option.some_inj.mp hs2) ▸ hprop
  · intro posts
    have hmap : (aggregate posts).map SourceSummary.source_url = groupKeys posts :=
      aggregate_keys posts (groupKeys posts)
        (fun k hk => (mem_groupKeys posts k).mp hk)
    constructor
    · rw [hmap]
      exact nodup_groupKeys_foldl posts [] List.nodup_nil
    · intro k
      rw [hmap]
      exact mem_groupKeys posts k

/-- C3 witness: the single-post list `c3posts0` produces one summary, which
satisfies the per-summary contract. -/
theorem c3_aggregate_summaries_witness :
    ((aggregate c3posts0).get ⟨0, by decide⟩) ∈ aggregate c3posts0
    ∧ C3PerSummary c3posts0 ((aggregate c3posts0).get ⟨0, by decide⟩) := by
  have hm : ((aggregate c3posts0).get ⟨0, by decide⟩) ∈ aggregate c3posts0 :=
    List.get_mem _ _ _
  exact ⟨hm, c3_aggregate_summaries.1 c3posts0 _ hm⟩

/-- C7: every per-URL exception is caught at the orchestrator boundary; a
URL lands on the failed list exactly when its processing raised; rows
accumulate across the remaining URLs in order; the run itself never aborts
(`run_pipeline` always returns `ok`), whatever the cleanup outcome — the
`close()` result, ok or error, is swallowed. -/
theorem c7_run_pipeline_partial_failure :
    ∀ (process : String → Except String (List EnrichedPost))
      (close : Except String Unit) (urls : List String),
      run_pipeline process close urls = Except.ok (urlLoop process urls)
      ∧ (urlLoop process urls).2 = urls.filter (fun u => !(exceptIsOk (process u)))
      ∧ (urlLoop process urls).1
          = (urls.map (fun u =>
              match process u with
              | Except.ok rows => rows
              | Except.error _ => [])).flatten := by
  intro process close urls
  refine ⟨?_, ?_, ?_⟩
  · cases close with
    | ok _ => rfl
    | error _ => rfl
  · induction urls with
    | nil => rfl
    | cons u rest ih =>
      cases hp : process u with
      | ok rows => simp [urlLoop, List.filter_cons, hp, exceptIsOk, ih]
      | error e => simp [urlLoop, List.filter_cons, hp, exceptIsOk, ih]
  · induction urls with
    | nil => rfl
    | cons u rest ih =>
      cases hp : process u with
      | ok rows => simp [urlLoop, hp, ih]
      | error e => simp [urlLoop, hp, ih]

lemma specContent_eq_empty {p : Post} (hc : specContent p = "") : p.text = "" := by
  by_cases ht : p.text = ""
  · exact ht
  · exfalso
    unfold specContent at hc
    rw [if_neg ht] at hc
    cases hh : p.heading with
    | none =>
      rw [hh] at hc
      rw [List.nil_append] at hc
      exact ht hc
    | some h =>
      rw [hh] at hc
      dsimp only at hc
      by_cases hhe : h = ""
      · rw [if_pos hhe, List.nil_append] at hc
        exact ht hc
      · rw [if_neg hhe] at hc
        have hc2 : h ++ " " ++ p.text = "" := hc
        have hlen := congrArg String.length hc2
        simp [String.length_append] at hlen
        exact absurd hlen.1.2 (by decide)

/-- C10: `_append_posts` copies all seven `Post` fields unchanged into each
enriched record and fills the five sentiment fields from the scorer's output
on the space-joined concatenation of the non-empty parts of heading and
text — for any scorer. -/
theorem c10_enrichment :
    ∀ (scoreFn : String → ScoreResult) (posts : List Post),
      appendPosts scoreFn posts = posts.map (fun p =>
        { source_url := p.source_url, page_url := p.page_url, post_id := p.post_id,
          author := p.author, posted_at := p.posted_at, heading := p.heading,
          text := p.text,
          sentiment_compound := (scoreFn (specContent p)).compound,
          sentiment_label := (scoreFn (specContent p)).label,
          sentiment_pos := (scoreFn (specContent p)).pos,
          sentiment_neg := (scoreFn (specContent p)).neg,
          sentiment_neu := (scoreFn (specContent p)).neu }) := by
  intro scoreFn posts
  unfold appendPosts
  apply List.map_congr_left
  intro p _
  have hkey : (if specContent p = "" then p.text else specContent p) = specContent p := by
    by_cases hc : specContent p = ""
    · rw [if_pos hc, hc]
      exact specContent_eq_empty hc
    · rw [if_neg hc]
  simp only [hkey]

lemma parse_posts_aux_text_ne (pu su : String) :
    ∀ (els : List SElement) (seen : List String) (p : Post),
      p ∈ parse_posts_aux pu su seen els → p.text ≠ "" := by
  intro els
  induction els with
  | nil =>
    intro seen p hp
    simp [parse_posts_aux] at hp
  | cons el rest ih =>
    intro seen p hp
    by_cases hskip : elText el = "" ∨ elText el ∈ seen
    · simp only [parse_posts_aux, if_pos hskip] at hp
      exact ih seen p hp
    · simp only [parse_posts_aux, if_neg hskip] at hp
      rcases List.mem_cons.mp hp with h | h
      · rw [h]
        exact (not_or.mp hskip).1
      · exact ih _ p h

lemma parse_posts_aux_nodup (pu su : String) :
    ∀ (els : List SElement) (seen : List String),
      ((parse_posts_aux pu su seen els).map Post.text).Nodup
      ∧ ∀ t ∈ (parse_posts_aux pu su seen els).map Post.text, t ∉ seen := by
  intro els
  induction els with
  | nil =>
    intro seen
    constructor
    · simp [parse_posts_aux]
    · simp [parse_posts_aux]
  | cons el rest ih =>
    intro seen
    by_cases hskip : elText el = "" ∨ elText el ∈ seen
    · simp only [parse_posts_aux, if_pos hskip]
      exact ih seen
    · simp only [parse_posts_aux, if_neg hskip]
      have hel := not_or.mp hskip
      obtain ⟨ihd, ihm⟩ := ih (elText el :: seen)
      constructor
      · simp only [List.map_cons]
        refine List.nodup_cons.mpr ⟨?_, ihd⟩
        intro hmem
        exact (ihm _ hmem) (List.mem_cons_self _ _)
      · intro t ht
        simp only [List.map_cons, List.mem_cons] at ht
        rcases ht with h | h
        · rw [h]
          exact hel.2
        · intro hseen
          exact (ihm t h) (List.mem_cons_of_mem _ hseen)

lemma sel_parse_posts_inv (hs ts : List String) (pu su : String) (p : Post)
    (hp : p ∈ sel_parse_posts hs ts pu su) :
    p.text ≠ "" ∨ p.heading.getD "" ≠ "" := by
  unfold sel_parse_posts at hp
  obtain ⟨idx, -, hsome⟩ := List.mem_filterMap.mp hp
  dsimp only at hsome
  split at hsome
  · exact Option.noConfusion hsome
  · rename_i hcond
    obtain rfl := (Option.some_inj.mp hsome).symm
    rcases not_and_or.mp hcond with h1 | h2
    · exact Or.inr h1
    · exact Or.inl h2

lemma msgToPost_inv (u : String) (m : ApiMsg) (p : Post)
    (hp : msgToPost u m = some p) : p.text ≠ "" ∨ p.heading.getD "" ≠ "" := by
  unfold msgToPost at hp
  dsimp only at hp
  split at hp
  · exact Option.noConfusion hp
  · rename_i hcond
    obtain rfl := (Option.some_inj.mp hp).symm
    rcases not_and_or.mp hcond with h1 | h2
    · refine Or.inr ?_
      show (if clean_text (m.heading.getD "") = "" then none
            else some (clean_text (m.heading.getD ""))).getD "" ≠ ""
      rw [if_neg h1, Option.getD_some]
      exact h1
    · exact Or.inl h2

lemma processBatch_inv (u : String) (mm : ℕ) :
    ∀ (b : List ApiMsg) (acc : List Post),
      (∀ p ∈ acc, p.text ≠ "" ∨ p.heading.getD "" ≠ "") →
      ∀ p ∈ (processBatch u mm acc b).1, p.text ≠ "" ∨ p.heading.getD "" ≠ "" := by
  intro b
  induction b with
  | nil =>
    intro acc hacc p hp
    exact hacc p hp
  | cons m rest ih =>
    intro acc hacc p hp
    cases hm : msgToPost u m with
    | none =>
      simp only [processBatch, hm] at hp
      exact ih acc hacc p hp
    | some q =>
      have hq := msgToPost_inv u m q hm
      have hacc2 : ∀ r ∈ acc ++ [q], r.text ≠ "" ∨ r.heading.getD "" ≠ "" := by
        intro r hr
        rcases List.mem_append.mp hr with h | h
        · exact hacc r h
        · rw [List.mem_singleton.mp h]
          exact hq
      simp only [processBatch, hm] at hp
      by_cases hcap : mm ≠ 0 ∧ mm ≤ (acc ++ [q]).length
      · rw [if_pos hcap] at hp
        exact hacc2 p hp
      · rw [if_neg hcap] at hp
        exact ih _ hacc2 p hp

lemma fetchLoop_inv (feed : ℕ → List ApiMsg) (limit mm : ℕ) (u : String) :
    ∀ (fuel offset : ℕ) (acc : List Post) (reqs : List ℕ)
      (posts : List Post) (rs : List ℕ),
      (∀ p ∈ acc, p.text ≠ "" ∨ p.heading.getD "" ≠ "") →
      fetchLoop feed limit mm u fuel offset acc reqs = some (posts, rs) →
      ∀ p ∈ posts, p.text ≠ "" ∨ p.heading.getD "" ≠ "" := by
  intro fuel
  induction fuel with
  | zero =>
    intro offset acc reqs posts rs hacc heq
    exact Option.noConfusion heq
  | succ fuel ih =>
    intro offset acc reqs posts rs hacc heq
    simp only [fetchLoop] at heq
    by_cases hie : (feed offset).isEmpty
    · rw [if_pos hie] at heq
      obtain ⟨h1, -⟩ := Prod.mk.injEq .. ▸ Option.some_inj.mp heq
      intro p hp
      exact hacc p (h1 ▸ hp)
    · rw [if_neg hie] at heq
      have hpr : ∀ p ∈ (processBatch u mm acc (feed offset)).1,
          p.text ≠ "" ∨ p.heading.getD "" ≠ "" :=
        processBatch_inv u mm (feed offset) acc hacc
      by_cases hearly : (processBatch u mm acc (feed offset)).2
      · rw [if_pos hearly] at heq
        obtain ⟨h1, -⟩ := Prod.mk.injEq .. ▸ Option.some_inj.mp heq
        intro p hp
        exact hpr p (h1 ▸ hp)
      · rw [if_neg hearly] at heq
        by_cases hlt : (feed offset).length < limit
        · rw [if_pos hlt] at heq
          obtain ⟨h1, -⟩ := Prod.mk.injEq .. ▸ Option.some_inj.mp heq
          intro p hp
          exact hpr p (h1 ▸ hp)
        · rw [if_neg hlt] at heq
          exact ih (offset + limit) _ _ posts rs hpr heq

/-- C8: no backend's extraction step ever emits a `Post` whose heading and
text are both empty — each emitted post has non-empty text, or a non-empty
heading alongside an empty text: the static backend skips empty-text
elements, the dynamic backend skips indices where both positional nodes are
empty, and the API backend skips messages whose cleaned heading and message
are both empty. -/
theorem c8_no_empty_post :
    (∀ (els : List SElement) (pu su : String) (p : Post),
      p ∈ parse_posts els pu su → p.text ≠ "" ∨ p.heading.getD "" ≠ "")
    ∧ (∀ (hs ts : List String) (pu su : String) (p : Post),
      p ∈ sel_parse_posts hs ts pu su → p.text ≠ "" ∨ p.heading.getD "" ≠ "")
    ∧ (∀ (feed : ℕ → List ApiMsg) (limit mm : ℕ) (u : String) (fuel : ℕ)
        (posts : List Post) (rs : List ℕ),
        fetchLoop feed limit mm u fuel 0 [] [] = some (posts, rs) →
        ∀ p ∈ posts, p.text ≠ "" ∨ p.heading.getD "" ≠ "") := by
  refine ⟨?_, ?_, ?_⟩
  · intro els pu su p hp
    exact Or.inl (parse_posts_aux_text_ne pu su (find_post_elements els) [] p hp)
  · intro hs ts pu su p hp
    exact sel_parse_posts_inv hs ts pu su p hp
  · intro feed limit mm u fuel posts rs heq
    exact fetchLoop_inv feed limit mm u fuel 0 [] [] posts rs (by simp) heq

/-- C8 witness: one concrete post from each backend. -/
theorem c8_no_empty_post_witness :
    (c8staticPost ∈ parse_posts c8els "p" "s"
      ∧ (c8staticPost.text ≠ "" ∨ c8staticPost.heading.getD "" ≠ ""))
    ∧ (c8selPost ∈ sel_parse_posts ["Head"] ["Body"] "p" "s"
      ∧ (c8selPost.text ≠ "" ∨ c8selPost.heading.getD "" ≠ ""))
    ∧ (fetchLoop c8feed 5 0 "u" 2 0 [] [] = some ([c8post], [0])
      ∧ ∀ p ∈ [c8post], p.text ≠ "" ∨ p.heading.getD "" ≠ "") :=
  ⟨⟨by decide, c8_no_empty_post.1 c8els "p" "s" c8staticPost (by decide)⟩,
   ⟨by decide, c8_no_empty_post.2.1 ["Head"] ["Body"] "p" "s" c8selPost (by decide)⟩,
   ⟨by decide, c8_no_empty_post.2.2 c8feed 5 0 "u" 2 [c8post] [0] (by decide)⟩⟩

/-- C9: within one `parse_posts` call of the static backend no two emitted
posts share the same cleaned text; the scenario page of three matching
`div[class*='cmt']` elements plus one duplicate-text element yields exactly
3 posts; and the dedup set is scoped to the call — the same text parsed in
two separate calls (different pages of one thread) is emitted twice. -/
theorem c9_static_dedup :
    (∀ (els : List SElement) (pu su : String),
      ((parse_posts els pu su).map Post.text).Nodup)
    ∧ (parse_posts c9els "p" "s").length = 3
    ∧ ((parse_posts c9elsDup "p1" "s").map Post.text
        ++ (parse_posts c9elsDup "p2" "s").map Post.text)
        = ["repeated across pages", "repeated across pages"] := by
  refine ⟨?_, by decide, by decide⟩
  intro els pu su
  exact (parse_posts_aux_nodup pu su (find_post_elements els) []).1
